import Mathlib

/-!
Shallow embedding of the same-block execution scheduler and gRPC load
balancer of the solana-pumpfun-sniper repository
(src/same_block_execution.rs, src/grpc_manager.rs), with theorems checking
the natural-language specification against the code.

Modelling conventions:
* Rust `u64`/`u32`/`usize` values that the claims use only through
  comparisons and increments are modelled as `Nat` (no overflow is
  reachable in any scenario below).
* `Signature`, `Hash` and `Instant` are opaque to all of the modelled
  logic; they are modelled as `Nat` tokens.
* `HashMap<K, V>` is modelled as an association list with unique keys:
  insert replaces any previous binding, remove deletes the binding.
* Fallible Rust functions returning `Result<T>` become `Except SniperError T`;
  methods that also mutate state return the new state alongside.
* External RPC calls are modelled as explicit input parameters carrying the
  response the call would have produced.
-/

namespace Sniper

/-- Error type, after `src/error.rs` (only the variants the modelled code
constructs). `generic` stands for `SniperError::Generic(anyhow!(..))`,
`solanaClient` for `SniperError::SolanaClient(String)`. -/
inductive SniperError where
  | generic (msg : String)
  | solanaClient (msg : String)
deriving DecidableEq, Repr

/-- `ExecutionPriority` from src/same_block_execution.rs. The comparison
order is declaration order (Low < Medium < High < Critical), which the
repository's unit test `test_execution_priority` asserts. -/
inductive ExecutionPriority where
  | low
  | medium
  | high
  | critical
deriving DecidableEq, Repr

def ExecutionPriority.toNat : ExecutionPriority → Nat
  | .low => 0
  | .medium => 1
  | .high => 2
  | .critical => 3

/-- Rust `Ord::cmp` on `ExecutionPriority` (derived order). -/
def ExecutionPriority.cmp (a b : ExecutionPriority) : Ordering :=
  compare a.toNat b.toNat

/-- `PendingTransaction` from src/same_block_execution.rs. The opaque
`transaction : Transaction` payload is not modelled; `signature` and
`created_at` are opaque tokens. -/
structure PendingTransaction where
  signature : Nat
  target_block : Nat
  created_at : Nat
  priority : ExecutionPriority
  retry_count : Nat
deriving DecidableEq, Repr

instance : Inhabited PendingTransaction := ⟨⟨0, 0, 0, .low, 0⟩⟩

/-- Loop body of Rust `slice::binary_search_by` (the branchless std
implementation): `base` and `size` delimit the live window; each round
halves the window, keeping `base` where the probed comparison is not
`Greater`. The first argument is fuel; the initial call passes the list
length, which bounds the number of halvings. -/
def bsGo (l : List PendingTransaction) (f : PendingTransaction → Ordering) :
    Nat → Nat → Nat → Nat
  | 0, base, _ => base
  | fuel + 1, base, size =>
    if size ≤ 1 then base
    else
      let half := size / 2
      let mid := base + half
      let c := f (l.getD mid default)
      bsGo l f fuel (if c = .gt then base else mid) (size - half)

/-- Rust `slice::binary_search_by` followed by `.unwrap_or_else(|i| i)`
as used in `ExecutionQueue::add_transaction`: both the `Ok(i)` (found)
and `Err(i)` (insertion point) cases collapse to the index. -/
def searchIndex (l : List PendingTransaction) (f : PendingTransaction → Ordering) : Nat :=
  if l.length = 0 then 0
  else
    let base := bsGo l f l.length 0 l.length
    match f (l.getD base default) with
    | .eq => base
    | .lt => base + 1
    | .gt => base

/-- Rust `Vec::insert(i, x)`: shift the suffix right and place `x` at
index `i`. (Rust panics for `i > len`; every index produced by
`searchIndex` is at most the length, where this equals appending.) -/
def vecInsert (i : Nat) (x : α) (l : List α) : List α :=
  l.take i ++ x :: l.drop i

/-- `ExecutionQueue::add_transaction`: reject when the queue is at
capacity, otherwise insert at the position found by binary search on
priority with the comparator `tx.priority.cmp(&new.priority).reverse()`.
Returns the Rust `Result<()>` together with the updated queue contents
(unchanged on rejection). -/
def addTransaction (max_queue_size : Nat) (q : List PendingTransaction)
    (tx : PendingTransaction) : Except SniperError Unit × List PendingTransaction :=
  if max_queue_size ≤ q.length then
    (.error (.generic "Execution queue is full"), q)
  else
    let i := searchIndex q (fun t => (t.priority.cmp tx.priority).swap)
    (.ok (), vecInsert i tx q)

/-- `ExecutionQueue::get_next_transaction`: `Vec::pop`, i.e. remove and
return the LAST element of the backing vector. -/
def getNextTransaction (q : List PendingTransaction) :
    Option PendingTransaction × List PendingTransaction :=
  match q.getLast? with
  | none => (none, q)
  | some tx => (some tx, q.dropLast)

/-- `ExecutionQueue::remove_transaction`: remove the first element whose
signature matches, reporting whether one was found. -/
def removeTransaction (q : List PendingTransaction) (sig : Nat) :
    Bool × List PendingTransaction :=
  match q.findIdx? (fun tx => tx.signature == sig) with
  | some i => (true, q.eraseIdx i)
  | none => (false, q)

/-! ### Pending-transaction registry (`HashMap<Signature, PendingTransaction>`) -/

/-- Registry of pending transactions keyed by signature, an association
list with unique keys. -/
abbrev Registry := List (Nat × PendingTransaction)

/-- `HashMap::remove(&sig)`: drop the binding for `sig`. -/
def regRemove (m : Registry) (sig : Nat) : Registry :=
  m.filter (fun p => p.1 != sig)

/-- `HashMap::insert(sig, tx)`: bind `sig` to `tx`, replacing any
previous binding. -/
def regInsert (m : Registry) (sig : Nat) (tx : PendingTransaction) : Registry :=
  (sig, tx) :: regRemove m sig

/-- `HashMap::contains_key(&sig)`. -/
def regContains (m : Registry) (sig : Nat) : Bool :=
  m.any (fun p => p.1 == sig)

/-! ### BlockTracker -/

/-- Response of `rpc_client.get_slot_with_commitment`, passed in as data:
either a slot number or an error message. -/
inductive SlotPoll where
  | ok (slot : Nat)
  | err (msg : String)
deriving DecidableEq, Repr

/-- `BlockTracker::update_current_block`: on a successful poll the stored
current block is overwritten with the polled slot (unconditionally); on a
failed poll it is left unchanged and an error is returned. First
component is the returned `Result<u64>`, second the stored current block
after the call. -/
def updateCurrentBlock (current : Nat) (poll : SlotPoll) : Except SniperError Nat × Nat :=
  match poll with
  | .ok slot => (.ok slot, slot)
  | .err e => (.error (.solanaClient ("Failed to get current block: " ++ e)), current)

/-- Response of `rpc_client.get_block_hash_with_commitment`, passed in as
data: `Ok(Some(hash))`, `Ok(None)`, or `Err(msg)`. -/
inductive HashPoll where
  | okSome (h : Nat)
  | okNone
  | err (msg : String)
deriving DecidableEq, Repr

/-- The block-hash cache (`HashMap<u64, Hash>`), keyed by slot. -/
abbrev HashCache := List (Nat × Nat)

/-- Cache lookup, `cache.get(&slot)`. -/
def cacheLookup (cache : HashCache) (slot : Nat) : Option Nat :=
  (cache.find? (fun p => p.1 == slot)).map (·.2)

/-- Smallest key of the cache, `cache.keys().min().unwrap()` (the Rust
code only calls it when the cache is non-empty). -/
def cacheMinKey (cache : HashCache) : Nat :=
  match cache.map (·.1) with
  | [] => 0
  | k :: ks => ks.foldl Nat.min k

/-- `BlockTracker::get_block_hash`: serve from cache when present;
otherwise consult the RPC. `Ok(Some(h))` is cached (evicting the
lowest-keyed entry when the cache exceeds 100 entries); `Ok(None)`
becomes the error `SolanaClient("Block hash not found")`; `Err(e)`
becomes `SolanaClient("Failed to get block hash: " ++ e)`. Returns the
`Result<Hash>` and the cache after the call. -/
def getBlockHash (cache : HashCache) (slot : Nat) (rpc : HashPoll) :
    Except SniperError Nat × HashCache :=
  match cacheLookup cache slot with
  | some h => (.ok h, cache)
  | none =>
    match rpc with
    | .okSome h =>
      let cache1 : HashCache := (slot, h) :: cache.filter (fun p => p.1 != slot)
      let cache2 :=
        if 100 < cache1.length then
          cache1.filter (fun p => p.1 != cacheMinKey cache1)
        else cache1
      (.ok h, cache2)
    | .okNone => (.error (.solanaClient "Block hash not found"), cache)
    | .err e => (.error (.solanaClient ("Failed to get block hash: " ++ e)), cache)

/-! ### Execution task (`SameBlockExecutor::start_execution_task` inner loop) -/

/-- Queue-plus-registry state acted on by the execution task, extended
with a log of the submissions it performed: each entry records the
`PendingTransaction` as it was at submission time and whether the
submission succeeded. -/
structure ExecState where
  queue : List PendingTransaction
  pending : Registry
  log : List (PendingTransaction × Bool)
deriving DecidableEq, Repr

/-- Result of one iteration of the `while let` loop: either continue with
the next iteration, or leave the loop (queue empty, or a popped
transaction targets a future block and was put back). -/
inductive StepResult where
  | next (s : ExecState)
  | stop (s : ExecState)
deriving DecidableEq, Repr

/-- One iteration of the `while let Some(mut pending_tx) = queue.get_next_transaction()`
body in `start_execution_task`, for a fixed `current_block` read at the
start of the tick. `submitOk tx` is the outcome the external
`send_and_confirm_transaction` would produce for this submission. On
success the signature is removed from the pending registry; on failure
`retry_count` is incremented and, while it stays below 3, the
transaction is re-queued with its priority set to `High`; at 3 it is
dropped and its registry entry removed. A popped transaction whose
`target_block` exceeds `current_block` is re-queued and the loop
breaks. -/
def execStep (submitOk : PendingTransaction → Bool) (cap current_block : Nat)
    (s : ExecState) : StepResult :=
  match getNextTransaction s.queue with
  | (none, _) => .stop s
  | (some tx, q1) =>
    if tx.target_block ≤ current_block then
      if submitOk tx then
        .next { queue := q1
                pending := regRemove s.pending tx.signature
                log := s.log ++ [(tx, true)] }
      else
        let tx1 := { tx with retry_count := tx.retry_count + 1 }
        if tx1.retry_count < 3 then
          let tx2 := { tx1 with priority := .high }
          .next { queue := (addTransaction cap q1 tx2).2
                  pending := s.pending
                  log := s.log ++ [(tx, false)] }
        else
          .next { queue := q1
                  pending := regRemove s.pending tx.signature
                  log := s.log ++ [(tx, false)] }
    else
      .stop { s with queue := (addTransaction cap q1 tx).2 }

/-- The whole `while let` loop of one scheduler tick, with explicit fuel
bounding the number of iterations (the loop terminates in the code
because every iteration removes an item or consumes a retry; the
theorems hold for every fuel). -/
def execLoop (submitOk : PendingTransaction → Bool) (cap current_block : Nat) :
    Nat → ExecState → ExecState
  | 0, s => s
  | fuel + 1, s =>
    match execStep submitOk cap current_block s with
    | .stop s1 => s1
    | .next s1 => execLoop submitOk cap current_block fuel s1

/-! ### `SameBlockExecutor::cancel_transaction` and `schedule_transaction` -/

/-- `cancel_transaction`: remove the signature from the execution queue
and from the pending registry, in that order, and return whether either
removal found it. Returns the flag, the queue and the registry after the
call. -/
def cancelTransaction (q : List PendingTransaction) (pending : Registry) (sig : Nat) :
    Bool × List PendingTransaction × Registry :=
  let rq := removeTransaction q sig
  let removedFromPending := regContains pending sig
  (rq.1 || removedFromPending, rq.2, regRemove pending sig)

/-- State touched by `schedule_transaction`: the tracker's current block
and hash cache, the execution queue, and the pending registry. -/
structure SchedState where
  current_block : Nat
  cache : HashCache
  queue : List PendingTransaction
  pending : Registry
deriving DecidableEq, Repr

/-- `schedule_transaction`: compute `target_block = current + offset`,
fetch its blockhash (propagating failure), build the
`PendingTransaction` with `retry_count = 0`, push it into the execution
queue (propagating `QueueFull`), and only then insert it into the
pending registry. `sig` is the first signature of the signed
transaction and `now` the `Instant::now()` creation stamp, both opaque
inputs here; `rpc` is the RPC response used on a cache miss. -/
def scheduleTransaction (cap : Nat) (s : SchedState) (rpc : HashPoll) (sig : Nat)
    (priority : ExecutionPriority) (target_block_offset : Nat) (now : Nat) :
    Except SniperError Nat × SchedState :=
  let target_block := s.current_block + target_block_offset
  match getBlockHash s.cache target_block rpc with
  | (.error e, cache1) => (.error e, { s with cache := cache1 })
  | (.ok _, cache1) =>
    let tx : PendingTransaction :=
      { signature := sig, target_block := target_block, created_at := now
        priority := priority, retry_count := 0 }
    match addTransaction cap s.queue tx with
    | (.error e, q1) => (.error e, { s with cache := cache1, queue := q1 })
    | (.ok _, q1) =>
      (.ok sig, { s with cache := cache1, queue := q1
                         pending := regInsert s.pending sig tx })

/-! ### LoadBalancer (src/grpc_manager.rs) -/

/-- `ConnectionInfo` from src/grpc_manager.rs (the `weight : f64` field
is never read by the balancing logic and is omitted). -/
structure ConnectionInfo where
  id : Nat
  is_healthy : Bool
deriving DecidableEq, Repr

instance : Inhabited ConnectionInfo := ⟨⟨0, false⟩⟩

/-- `LoadBalancer` from src/grpc_manager.rs. -/
structure LoadBalancer where
  connections : List ConnectionInfo
  current_index : Nat
deriving DecidableEq, Repr

/-- `LoadBalancer::add_connection`. -/
def addConnection (lb : LoadBalancer) (id : Nat) (is_healthy : Bool) : LoadBalancer :=
  { lb with connections := lb.connections ++ [⟨id, is_healthy⟩] }

/-- `LoadBalancer::get_next_connection`: filter the healthy connections,
return `None` (leaving the cursor untouched) when there are none,
otherwise return the id at `current_index % healthy.len()` and advance
the cursor. -/
def getNextConnection (lb : LoadBalancer) : Option Nat × LoadBalancer :=
  let healthy := lb.connections.filter (·.is_healthy)
  if healthy.isEmpty then (none, lb)
  else
    let conn := healthy.getD (lb.current_index % healthy.length) default
    (some conn.id, { lb with current_index := lb.current_index + 1 })

/-- `LoadBalancer::update_connection_health`: set the health flag of the
first connection with the given id, if any. -/
def updateConnectionHealth (lb : LoadBalancer) (id : Nat) (is_healthy : Bool) : LoadBalancer :=
  { lb with connections := go lb.connections }
where
  go : List ConnectionInfo → List ConnectionInfo
    | [] => []
    | c :: rest =>
      if c.id = id then { c with is_healthy := is_healthy } :: rest
      else c :: go rest

/-- Successive `get_next_connection` calls: the list of the `n` results
in order, and the balancer afterwards. -/
def runCalls : Nat → LoadBalancer → List (Option Nat) × LoadBalancer
  | 0, lb => ([], lb)
  | n + 1, lb =>
    let r := getNextConnection lb
    let rest := runCalls n r.2
    (r.1 :: rest.1, rest.2)

/-! ### Abstract operation sequences over the execution queue -/

/-- The operations callers can perform on an `ExecutionQueue`. -/
inductive QueueOp where
  | add (tx : PendingTransaction)
  | popNext
  | remove (sig : Nat)
deriving DecidableEq, Repr

/-- Apply one queue operation to the queue contents. -/
def applyOp (cap : Nat) (q : List PendingTransaction) : QueueOp → List PendingTransaction
  | .add tx => (addTransaction cap q tx).2
  | .popNext => (getNextTransaction q).2
  | .remove sig => (removeTransaction q sig).2

/-- Apply a sequence of queue operations in order. -/
def applyOps (cap : Nat) (ops : List QueueOp) (q : List PendingTransaction) :
    List PendingTransaction :=
  ops.foldl (applyOp cap) q

/-- The state carried by a `StepResult`, whether the loop continues or
stops. -/
def stepStateOf : StepResult → ExecState
  | .next s => s
  | .stop s => s

/-! ### Concrete scenario data -/

/-- Scenario transaction A of the spec's ordering example: priority
Critical, target block 10. -/
def txA : PendingTransaction :=
  { signature := 1, target_block := 10, created_at := 0
    priority := .critical, retry_count := 0 }

/-- Scenario transaction B of the spec's ordering example: priority Low,
target block 5. -/
def txB : PendingTransaction :=
  { signature := 2, target_block := 5, created_at := 1
    priority := .low, retry_count := 0 }

/-- Queue contents after enqueueing A then B into an empty queue with the
executor's capacity 1000. -/
def c1Queue : List PendingTransaction :=
  (addTransaction 1000 (addTransaction 1000 [] txA).2 txB).2

/-- Queue contents after enqueueing B then A (the opposite order). -/
def c1QueueRev : List PendingTransaction :=
  (addTransaction 1000 (addTransaction 1000 [] txB).2 txA).2

/-- Scenario transaction for the retry scenarios: priority Critical,
target block 5, fresh (`retry_count = 0`). -/
def txC : PendingTransaction :=
  { signature := 7, target_block := 5, created_at := 0
    priority := .critical, retry_count := 0 }

/-- Submission outcomes for the fail-fail-succeed scenario: the
submission succeeds exactly when the transaction has already failed
twice (`retry_count` has reached 2). -/
def c6Oracle : PendingTransaction → Bool :=
  fun tx => decide (2 ≤ tx.retry_count)

/-- Final state of the scheduler loop run on a queue holding only `txC`,
with outcomes fail, fail, succeed; current block 10, capacity 1000,
fuel 5. -/
def c6Final : ExecState :=
  execLoop c6Oracle 1000 10 5
    { queue := (addTransaction 1000 [] txC).2, pending := [(7, txC)], log := [] }

/-- Load balancer with healthy connections 1, 2, 3 and cursor 0. -/
def lb0 : LoadBalancer :=
  { connections := [⟨1, true⟩, ⟨2, true⟩, ⟨3, true⟩], current_index := 0 }

/-! ## Helper lemmas -/

theorem length_vecInsert (i : Nat) (x : α) (l : List α) :
    (vecInsert i x l).length = l.length + 1 := by
  simp only [vecInsert, List.length_append, List.length_cons, List.length_take,
    List.length_drop]
  omega

theorem mem_vecInsert_self (i : Nat) (x : α) (l : List α) : x ∈ vecInsert i x l := by
  simp [vecInsert]

theorem mem_vecInsert_of_mem (i : Nat) (x y : α) (l : List α) (h : y ∈ l) :
    y ∈ vecInsert i x l := by
  rw [← List.take_append_drop i l] at h
  rcases List.mem_append.1 h with h1 | h2
  · exact List.mem_append.2 (.inl h1)
  · exact List.mem_append.2 (.inr (List.mem_cons_of_mem _ h2))

theorem addTransaction_full (cap : Nat) (q : List PendingTransaction)
    (tx : PendingTransaction) (h : cap ≤ q.length) :
    addTransaction cap q tx = (.error (.generic "Execution queue is full"), q) := by
  simp [addTransaction, h]

theorem addTransaction_ok (cap : Nat) (q : List PendingTransaction)
    (tx : PendingTransaction) (h : q.length < cap) :
    addTransaction cap q tx =
      (.ok (), vecInsert (searchIndex q fun t => (t.priority.cmp tx.priority).swap) tx q) := by
  simp [addTransaction, Nat.not_le.2 h]

theorem addTransaction_length (cap : Nat) (q : List PendingTransaction)
    (tx : PendingTransaction) (h : q.length ≤ cap) :
    (addTransaction cap q tx).2.length ≤ cap := by
  by_cases hf : cap ≤ q.length
  · rw [addTransaction_full cap q tx hf]
    exact h
  · rw [addTransaction_ok cap q tx (Nat.not_le.1 hf)]
    have := length_vecInsert (searchIndex q fun t => (t.priority.cmp tx.priority).swap) tx q
    simp only [this]
    omega

theorem addTransaction_mem_of_mem (cap : Nat) (q : List PendingTransaction)
    (tx y : PendingTransaction) (h : y ∈ q) : y ∈ (addTransaction cap q tx).2 := by
  by_cases hf : cap ≤ q.length
  · rw [addTransaction_full cap q tx hf]
    exact h
  · rw [addTransaction_ok cap q tx (Nat.not_le.1 hf)]
    exact mem_vecInsert_of_mem _ _ _ _ h

theorem addTransaction_mem_self (cap : Nat) (q : List PendingTransaction)
    (tx : PendingTransaction) (h : q.length < cap) : tx ∈ (addTransaction cap q tx).2 := by
  rw [addTransaction_ok cap q tx h]
  exact mem_vecInsert_self _ _ _

theorem getNext_concat (l : List PendingTransaction) (a : PendingTransaction) :
    getNextTransaction (l ++ [a]) = (some a, l) := by
  simp [getNextTransaction, List.getLast?_concat, List.dropLast_concat]

theorem getNext_length (q : List PendingTransaction) :
    (getNextTransaction q).2.length ≤ q.length := by
  unfold getNextTransaction
  rcases h : q.getLast? with _ | tx
  · exact Nat.le_refl _
  · show q.dropLast.length ≤ q.length
    rw [List.length_dropLast]
    omega

theorem removeTransaction_length (q : List PendingTransaction) (sig : Nat) :
    (removeTransaction q sig).2.length ≤ q.length := by
  unfold removeTransaction
  rcases h : q.findIdx? (fun tx => tx.signature == sig) with _ | i
  · rw [h]
  · rw [h]
    exact List.length_eraseIdx_le q i

theorem findIdxIsSome_eq_any (p : α → Bool) (l : List α) :
    ∀ i : Nat, (List.findIdx? p l i).isSome = l.any p := by
  induction l with
  | nil => intro i; simp [List.findIdx?_nil]
  | cons a t ih => intro i; by_cases h : p a <;> simp [List.findIdx?_cons, h, ih]

theorem removeTransaction_fst (q : List PendingTransaction) (sig : Nat) :
    (removeTransaction q sig).1 = q.any (fun tx => tx.signature == sig) := by
  have key := findIdxIsSome_eq_any (fun tx => tx.signature == sig) q 0
  unfold removeTransaction
  rcases h : q.findIdx? (fun tx => tx.signature == sig) with _ | i <;>
    rw [h] at key ⊢ <;> exact key

theorem regContains_regRemove (m : Registry) (sig : Nat) :
    regContains (regRemove m sig) sig = false := by
  induction m with
  | nil => rfl
  | cons p t ih =>
    by_cases h : p.1 = sig
    · simp only [regRemove, List.filter_cons] at ih ⊢
      simp only [h, bne_self_eq_false, Bool.false_eq_true, if_false]
      exact ih
    · simp only [regRemove, List.filter_cons] at ih ⊢
      simp [regContains, h, ih]

theorem applyOp_length (cap : Nat) (q : List PendingTransaction) (op : QueueOp)
    (h : q.length ≤ cap) : (applyOp cap q op).length ≤ cap := by
  cases op with
  | add tx => exact addTransaction_length cap q tx h
  | popNext => exact le_trans (getNext_length q) h
  | remove sig => exact le_trans (removeTransaction_length q sig) h

theorem applyOps_length (cap : Nat) (ops : List QueueOp) :
    ∀ q : List PendingTransaction, q.length ≤ cap → (applyOps cap ops q).length ≤ cap := by
  induction ops with
  | nil => intro q h; simpa [applyOps] using h
  | cons op rest ih =>
    intro q h
    show (List.foldl (applyOp cap) (applyOp cap q op) rest).length ≤ cap
    exact ih (applyOp cap q op) (applyOp_length cap q op h)

theorem execStep_of_queue_nil (submitOk : PendingTransaction → Bool) (cap current : Nat)
    (s : ExecState) (hq : s.queue = []) :
    execStep submitOk cap current s = .stop s := by
  unfold execStep
  rw [show getNextTransaction s.queue = (none, s.queue) from by rw [hq]; rfl]

theorem execStep_of_queue_concat (submitOk : PendingTransaction → Bool) (cap current : Nat)
    (s : ExecState) (q1 : List PendingTransaction) (t0 : PendingTransaction)
    (hq : s.queue = q1 ++ [t0]) :
    execStep submitOk cap current s =
      if t0.target_block ≤ current then
        if submitOk t0 = true then
          .next ⟨q1, regRemove s.pending t0.signature, s.log ++ [(t0, true)]⟩
        else if t0.retry_count + 1 < 3 then
          .next ⟨(addTransaction cap q1
              { t0 with retry_count := t0.retry_count + 1, priority := .high }).2,
            s.pending, s.log ++ [(t0, false)]⟩
        else
          .next ⟨q1, regRemove s.pending t0.signature, s.log ++ [(t0, false)]⟩
      else .stop ⟨(addTransaction cap q1 t0).2, s.pending, s.log⟩ := by
  unfold execStep
  rw [show getNextTransaction s.queue = (some t0, q1) from by
    rw [hq]; exact getNext_concat q1 t0]

theorem execStep_concat (submitOk : PendingTransaction → Bool) (cap current : Nat)
    (q1 : List PendingTransaction) (t0 : PendingTransaction) (p : Registry)
    (lg : List (PendingTransaction × Bool)) :
    execStep submitOk cap current ⟨q1 ++ [t0], p, lg⟩ =
      if t0.target_block ≤ current then
        if submitOk t0 = true then
          .next ⟨q1, regRemove p t0.signature, lg ++ [(t0, true)]⟩
        else if t0.retry_count + 1 < 3 then
          .next ⟨(addTransaction cap q1
              { t0 with retry_count := t0.retry_count + 1, priority := .high }).2,
            p, lg ++ [(t0, false)]⟩
        else
          .next ⟨q1, regRemove p t0.signature, lg ++ [(t0, false)]⟩
      else .stop ⟨(addTransaction cap q1 t0).2, p, lg⟩ := by
  simp only [execStep, getNext_concat]

theorem execLoop_succ (submitOk : PendingTransaction → Bool) (cap current n : Nat)
    (s : ExecState) :
    execLoop submitOk cap current (n + 1) s =
      match execStep submitOk cap current s with
      | .stop s1 => s1
      | .next s1 => execLoop submitOk cap current n s1 := rfl

/-! ## Claim theorems -/

/-- C1: the ExecutionQueue is kept sorted priority-descending but
`get_next_transaction` is `Vec::pop`, which removes the LAST element, so
dequeue order is priority ASCENDING and the comparator carries no
target_block or created_at tie-break at all. At the spec's own example —
A(Critical, target 10) and B(Low, target 5) in the queue, current height
10 — the queue holds [A, B] (whichever enqueue order), the next dequeue
yields B, and the scheduler submits B (signature 2) before A
(signature 1), the opposite of the claim. -/
theorem C1_dequeues_lowest_priority_first :
    c1Queue = [txA, txB] ∧ c1QueueRev = [txA, txB]
    ∧ (getNextTransaction c1Queue).1 = some txB
    ∧ ((execLoop (fun _ => true) 1000 10 5
          { queue := c1Queue, pending := [(1, txA), (2, txB)], log := [] }).log.map
        (fun e => e.1.signature)) = [2, 1] := by
  decide

/-- C2 counterexample: `update_current_block` stores whatever the poll
returned; with stored height 10 and a poll returning 5 the stored height
drops to 5, so the stored sequence is not non-decreasing and the stale
lower value is NOT discarded. -/
theorem C2_counterexample :
    (updateCurrentBlock 10 (.ok 5)).2 = 5 ∧ (updateCurrentBlock 10 (.ok 5)).2 < 10 := by
  decide

/-- C2 amended: after a successful poll the stored current block equals
the polled slot unconditionally (it can decrease); a failed poll leaves
it unchanged and returns an error. -/
theorem C2_stored_height_follows_poll :
    (∀ current slot, (updateCurrentBlock current (.ok slot)).2 = slot)
    ∧ (∀ current e, (updateCurrentBlock current (.err e)).2 = current
        ∧ (updateCurrentBlock current (.err e)).1
          = .error (.solanaClient ("Failed to get current block: " ++ e))) :=
  ⟨fun _ _ => rfl, fun _ _ => ⟨rfl, rfl⟩⟩

/-- C3: an enqueue on a queue at (or beyond) capacity returns the
queue-full error and leaves the contents exactly unchanged, and the
queue length stays at most the capacity under any sequence of
enqueue/dequeue/remove operations starting within capacity. -/
theorem C3_capacity_never_exceeded :
    ∀ (cap : Nat) (q : List PendingTransaction) (tx : PendingTransaction)
      (ops : List QueueOp),
      (cap ≤ q.length →
        addTransaction cap q tx = (.error (.generic "Execution queue is full"), q))
      ∧ (q.length ≤ cap → (applyOps cap ops q).length ≤ cap) :=
  fun cap q tx ops => ⟨addTransaction_full cap q tx, applyOps_length cap ops q⟩

/-- C3 witness: at capacity 1 with one queued transaction, an enqueue is
rejected unchanged, and a subsequent operation sequence keeps the length
at most 1. -/
theorem C3_capacity_never_exceeded_witness :
    addTransaction 1 [txA] txB = (.error (.generic "Execution queue is full"), [txA])
    ∧ (applyOps 1 [QueueOp.add txB] [txA]).length ≤ 1 :=
  ⟨(C3_capacity_never_exceeded 1 [txA] txB [QueueOp.add txB]).1 (by decide),
   (C3_capacity_never_exceeded 1 [txA] txB [QueueOp.add txB]).2 (by decide)⟩

/-- C5 counterexample: in the in-flight state — the transaction has been
popped from the queue by the scheduler (so it is absent from the queue)
but not yet resolved (so its registry entry remains) —
`cancel_transaction` returns true and deletes the registry entry,
whereas the claim requires it to return false and change nothing once
the item has been handed to the submitter. -/
theorem C5_counterexample :
    cancelTransaction [] [(1, txA)] 1 = (true, [], [])
    ∧ (cancelTransaction [] [(1, txA)] 1).1 ≠ false := by
  decide

/-- C5 amended: `cancel_transaction` never inspects submission status:
it removes the signature from the queue and from the registry whenever
present and returns true exactly when the signature was in the queue or
in the registry; afterwards the registry no longer contains the
signature. In particular an in-flight execution is still "cancelled"
(true) from the registry while its submission proceeds to its own
outcome. -/
theorem C5_cancel_is_unconditional :
    ∀ (q : List PendingTransaction) (pending : Registry) (sig : Nat),
      (cancelTransaction q pending sig).1
        = ((q.any fun tx => tx.signature == sig) || regContains pending sig)
      ∧ regContains (cancelTransaction q pending sig).2.2 sig = false := by
  intro q pending sig
  refine ⟨?_, regContains_regRemove pending sig⟩
  show ((removeTransaction q sig).1 || regContains pending sig) = _
  rw [removeTransaction_fst]

/-- C6 counterexample: in the fail-fail-succeed scenario the successful
third submission carries `retry_count = 2` (the counter increments only
on failure), not the claimed 3. -/
theorem C6_counterexample :
    (c6Final.log.getLast?.map fun e => (e.1.retry_count, e.2)) = some (2, true)
    ∧ (2 : Nat) ≠ 3 := by
  decide

/-- C6 amended: with submissions failing twice then succeeding, the
execution is submitted exactly three times, ends successfully (its
registry entry is removed and it leaves the queue), and the transaction
at the successful third attempt records `retry_count = 2`. -/
theorem C6_confirmed_with_retry_count_two :
    c6Final.pending = [] ∧ c6Final.queue = []
    ∧ c6Final.log.map (fun e => (e.1.retry_count, e.2))
      = [(0, false), (1, false), (2, true)] := by
  decide

/-- C9 counterexample: a missing block hash (`Ok(None)` from the RPC) is
reported as `Err(SolanaClient("Block hash not found"))` — an error of
the same variant as a genuine RPC failure, not a distinguished
NotYetAvailable outcome. -/
theorem C9_counterexample :
    (getBlockHash [] 5 .okNone).1 = .error (.solanaClient "Block hash not found")
    ∧ (getBlockHash [] 5 (.err "connection reset")).1
      = .error (.solanaClient "Failed to get block hash: connection reset") :=
  ⟨rfl, rfl⟩

/-- C9 amended: for any slot absent from the cache whose hash the chain
has not produced (`Ok(None)`), `get_block_hash` returns the error
`SolanaClient("Block hash not found")` and leaves the cache unchanged;
callers can tell this apart from a genuine RPC failure only by the
message string, not structurally. -/
theorem C9_missing_hash_is_plain_error :
    ∀ (cache : HashCache) (slot : Nat), cacheLookup cache slot = none →
      getBlockHash cache slot .okNone
        = (.error (.solanaClient "Block hash not found"), cache) := by
  intro cache slot h
  simp only [getBlockHash, h]

/-- C9 witness: the empty cache misses every slot and slot 5 yields the
plain error. -/
theorem C9_missing_hash_is_plain_error_witness :
    getBlockHash [] 5 .okNone = (.error (.solanaClient "Block hash not found"), []) :=
  C9_missing_hash_is_plain_error [] 5 rfl

/-- C4 counterexample: a Critical transaction whose first submission
fails is re-queued with priority High — the code overwrites the priority
with `ExecutionPriority::High` unconditionally, so a Critical item is
DOWNGRADED rather than kept at Critical, contradicting both "escalated
by exactly one level" and "never exceeding Critical (a Critical item
stays Critical)". -/
theorem C4_counterexample :
    (stepStateOf (execStep (fun _ => false) 1000 10
        { queue := [txC], pending := [(7, txC)], log := [] })).queue.map (·.priority)
      = [.high]
    ∧ ExecutionPriority.high ≠ .critical := by
  decide

/-- C4 amended: on a failed submission the retry counter increments; if
the new count is below 3 (max retries, hardcoded), the item is
re-enqueued with its priority set to High regardless of its previous
priority, the registry untouched; once the count reaches 3 the item is
dropped from the queue and its registry entry removed. -/
theorem C4_failed_submission_requeued_as_high :
    ∀ (submitOk : PendingTransaction → Bool) (cap current : Nat) (p : Registry)
      (lg : List (PendingTransaction × Bool)) (q1 : List PendingTransaction)
      (tx : PendingTransaction),
      q1.length + 1 ≤ cap →
      tx.target_block ≤ current →
      submitOk tx = false →
      (tx.retry_count + 1 < 3 →
        ∃ s1, execStep submitOk cap current ⟨q1 ++ [tx], p, lg⟩ = .next s1
          ∧ { tx with retry_count := tx.retry_count + 1,
                      priority := ExecutionPriority.high } ∈ s1.queue
          ∧ s1.pending = p)
      ∧ (3 ≤ tx.retry_count + 1 →
        ∃ s1, execStep submitOk cap current ⟨q1 ++ [tx], p, lg⟩ = .next s1
          ∧ s1.queue = q1 ∧ regContains s1.pending tx.signature = false) := by
  intro submitOk cap current p lg q1 tx hcap htgt hsub
  rw [execStep_of_queue_concat submitOk cap current ⟨q1 ++ [tx], p, lg⟩ q1 tx rfl]
  have hsubf : ¬submitOk tx = true := by rw [hsub]; exact Bool.false_ne_true
  constructor
  · intro hr
    rw [if_pos htgt, if_neg hsubf, if_pos hr]
    exact ⟨_, rfl, addTransaction_mem_self _ _ _ (by omega), rfl⟩
  · intro hr
    rw [if_pos htgt, if_neg hsubf, if_neg (by omega)]
    exact ⟨_, rfl, rfl, regContains_regRemove p tx.signature⟩

/-- C4 witness: the fresh Critical transaction `txC` failing once at
current block 10, capacity 1000: it is re-queued with retry count 1 and
priority High, registry untouched. -/
theorem C4_failed_submission_requeued_as_high_witness :
    ∃ s1, execStep (fun _ => false) 1000 10 ⟨[] ++ [txC], [(7, txC)], []⟩ = .next s1
      ∧ { txC with retry_count := txC.retry_count + 1,
                   priority := ExecutionPriority.high } ∈ s1.queue
      ∧ s1.pending = [(7, txC)] :=
  (C4_failed_submission_requeued_as_high (fun _ => false) 1000 10 [(7, txC)] [] [] txC
    (by decide) (by decide) rfl).1 (by decide)

/-- C7: items whose target block lies beyond the height read at the
start of the tick are still in the queue when the tick's processing loop
finishes, for every submission-outcome oracle, every fuel, and every
starting state within capacity: a popped future-target item is always
re-inserted (the queue, having just been popped, is below capacity) and
the loop then stops. -/
theorem C7_future_targets_stay_queued :
    ∀ (submitOk : PendingTransaction → Bool) (cap current fuel : Nat) (s : ExecState)
      (tx : PendingTransaction),
      s.queue.length ≤ cap → tx ∈ s.queue → current < tx.target_block →
      tx ∈ (execLoop submitOk cap current fuel s).queue := by
  intro submitOk cap current fuel
  induction fuel with
  | zero =>
    intro s tx _ hmem _
    exact hmem
  | succ n ih =>
    intro s tx hlen hmem hfut
    rcases List.eq_nil_or_concat s.queue with hq | ⟨q1, t0, hq⟩
    · rw [execLoop_succ, execStep_of_queue_nil submitOk cap current s hq]
      exact hmem
    · rw [List.concat_eq_append] at hq
      rw [execLoop_succ, execStep_of_queue_concat submitOk cap current s q1 t0 hq]
      rw [hq] at hlen hmem
      have hlen1 : q1.length + 1 ≤ cap := by simpa using hlen
      have hmem1 : tx ∈ q1 ∨ tx = t0 := by simpa using hmem
      by_cases htgt : t0.target_block ≤ current
      · rw [if_pos htgt]
        have htxq1 : tx ∈ q1 := by
          rcases hmem1 with h | h
          · exact h
          · exfalso
            subst h
            omega
        by_cases hsub : submitOk t0 = true
        · rw [if_pos hsub]
          exact ih _ _ (show q1.length ≤ cap by omega) htxq1 hfut
        · rw [if_neg hsub]
          by_cases hr : t0.retry_count + 1 < 3
          · rw [if_pos hr]
            exact ih _ _
              (addTransaction_length cap q1 _ (show q1.length ≤ cap by omega))
              (addTransaction_mem_of_mem _ _ _ _ htxq1) hfut
          · rw [if_neg hr]
            exact ih _ _ (show q1.length ≤ cap by omega) htxq1 hfut
      · rw [if_neg htgt]
        rcases hmem1 with h | h
        · exact addTransaction_mem_of_mem _ _ _ _ h
        · subst h
          exact addTransaction_mem_self _ _ _ (by omega)

/-- C7 witness: a queue holding only `txA` (target block 10) at current
block 3 with capacity 2 and fuel 5: `txA` is still queued after the
loop. -/
theorem C7_future_targets_stay_queued_witness :
    txA ∈ (execLoop (fun _ => true) 2 3 5
      { queue := [txA], pending := [], log := [] }).queue :=
  C7_future_targets_stay_queued (fun _ => true) 2 3 5
    { queue := [txA], pending := [], log := [] } txA
    (by decide) (by decide) (by decide)

/-- C8: `get_next_connection` returns None exactly when no healthy
connection exists; when connection ids are distinct, a returned id
always belongs to a healthy connection and never to one currently
flagged unhealthy (the healthy set is recomputed from the live flags at
every call); and in the spec's scenario — healthy connections 1, 2, 3 —
six successive calls yield 1,2,3,1,2,3 and, after marking 2 unhealthy,
the next four calls yield 1,3,1,3. -/
theorem C8_round_robin_over_healthy :
    (∀ lb : LoadBalancer,
      ((getNextConnection lb).1 = none ↔ lb.connections.filter (·.is_healthy) = []))
    ∧ (∀ (lb : LoadBalancer) (i : Nat), (lb.connections.map (·.id)).Nodup →
        (getNextConnection lb).1 = some i →
        (∃ c ∈ lb.connections, c.is_healthy = true ∧ c.id = i)
        ∧ ∀ c ∈ lb.connections, c.is_healthy = false → c.id ≠ i)
    ∧ (runCalls 6 lb0).1 = [some 1, some 2, some 3, some 1, some 2, some 3]
    ∧ (runCalls 4 (updateConnectionHealth (runCalls 6 lb0).2 2 false)).1
      = [some 1, some 3, some 1, some 3] := by
  refine ⟨?_, ?_, by decide, by decide⟩
  · intro lb
    simp only [getNextConnection]
    by_cases h : (lb.connections.filter (·.is_healthy)).isEmpty = true
    · rw [if_pos h]
      simpa using List.isEmpty_iff.1 h
    · rw [if_neg h]
      constructor
      · intro hc
        exact absurd hc (by simp)
      · intro hc
        exact absurd (List.isEmpty_iff.2 hc) h
  · intro lb i hnd hsome
    simp only [getNextConnection] at hsome
    by_cases h : (lb.connections.filter (·.is_healthy)).isEmpty = true
    · rw [if_pos h] at hsome
      exact absurd hsome (by simp)
    · rw [if_neg h] at hsome
      have hne : lb.connections.filter (·.is_healthy) ≠ [] :=
        fun he => h (List.isEmpty_iff.2 he)
      have hlen : 0 < (lb.connections.filter (·.is_healthy)).length :=
        List.length_pos.2 hne
      have hlt : lb.current_index % (lb.connections.filter (·.is_healthy)).length
          < (lb.connections.filter (·.is_healthy)).length := Nat.mod_lt _ hlen
      rw [List.getD_eq_getElem _ default hlt] at hsome
      have hid : ((lb.connections.filter
          (·.is_healthy))[lb.current_index % (lb.connections.filter
            (·.is_healthy)).length]).id = i := by
        simpa using hsome
      have hmemf := List.getElem_mem hlt
      have hmemc := List.mem_filter.1 hmemf
      refine ⟨⟨_, hmemc.1, hmemc.2, hid⟩, ?_⟩
      intro c hc hch hceq
      have hcc := List.inj_on_of_nodup_map hnd hc hmemc.1 (by rw [hceq, hid])
      rw [hcc, hmemc.2] at hch
      cases hch

/-- C8 witness: in the healthy-{1,2,3} balancer the first call returns
id 1, which belongs to a healthy connection and to no unhealthy one. -/
theorem C8_round_robin_over_healthy_witness :
    (∃ c ∈ lb0.connections, c.is_healthy = true ∧ c.id = 1)
    ∧ ∀ c ∈ lb0.connections, c.is_healthy = false → c.id ≠ 1 :=
  C8_round_robin_over_healthy.2.1 lb0 1 (by decide) (by decide)

/-- C10: when the execution queue is at capacity (and the blockhash step
succeeded), `schedule_transaction` returns the queue-full error having
touched neither the queue nor the pending-transactions registry: the
registry insert comes after the fallible enqueue, so a rejected
scheduling attempt leaves no registry entry behind. -/
theorem C10_queue_full_rejection_preserves_registry :
    ∀ (cap : Nat) (s : SchedState) (rpc : HashPoll) (sig : Nat)
      (prio : ExecutionPriority) (offset now h : Nat),
      cap ≤ s.queue.length →
      (getBlockHash s.cache (s.current_block + offset) rpc).1 = .ok h →
      (scheduleTransaction cap s rpc sig prio offset now).1
        = .error (.generic "Execution queue is full")
      ∧ (scheduleTransaction cap s rpc sig prio offset now).2.pending = s.pending
      ∧ (scheduleTransaction cap s rpc sig prio offset now).2.queue = s.queue := by
  intro cap s rpc sig prio offset now h hfull hok
  have hsched : scheduleTransaction cap s rpc sig prio offset now
      = (.error (.generic "Execution queue is full"),
        { s with cache := (getBlockHash s.cache (s.current_block + offset) rpc).2,
                 queue := s.queue }) := by
    simp only [scheduleTransaction]
    rcases hg : getBlockHash s.cache (s.current_block + offset) rpc with ⟨r, c1⟩
    rw [hg] at hok
    simp only at hok
    subst hok
    rw [addTransaction_full cap s.queue _ hfull]
  rw [hsched]
  exact ⟨rfl, rfl, rfl⟩

/-- C10 witness: capacity 1 with one queued transaction, blockhash for
target 1 served from the cache: the call errors and both queue and
registry are unchanged. -/
theorem C10_queue_full_rejection_preserves_registry_witness :
    (scheduleTransaction 1 ⟨0, [(1, 42)], [txA], []⟩ .okNone 9 .low 1 0).1
      = .error (.generic "Execution queue is full")
    ∧ (scheduleTransaction 1 ⟨0, [(1, 42)], [txA], []⟩ .okNone 9 .low 1 0).2.pending = []
    ∧ (scheduleTransaction 1 ⟨0, [(1, 42)], [txA], []⟩ .okNone 9 .low 1 0).2.queue
      = [txA] :=
  C10_queue_full_rejection_preserves_registry 1 ⟨0, [(1, 42)], [txA], []⟩ .okNone 9 .low
    1 0 42 (by decide) rfl

end Sniper
